import Mathlib

/-!
Verification development for the Receiptify expense tracker
(`src/index.tsx`). The application state and its operations are shallowly
embedded: JavaScript numbers are modelled as rationals (`ℚ`), fields that
may be absent (`undefined` in the source) as `Option`, and the JavaScript
truthiness of `x || d` (absent, `0`, and the empty string are falsy) by
explicit helper functions. Stateful React handlers become pure functions
from the relevant inputs and the previous state to the next state; the
browser's `localStorage` becomes a map from string keys to parsed JSON
values; `JSON.stringify` / `JSON.parse` become an explicit `Json` codec.
The browser's `new Date(s).getTime()` is an external facility and is kept
as an uninterpreted parameter `dm : String → ℤ` (milliseconds since the
epoch, possibly negative for pre-1970 dates).
-/

namespace Receiptify

/-- A normalized line item as produced by `handleImageChange`'s
`processedData` step: all five fields are present. -/
structure LineItem where
  description : String
  description_en : String
  quantity : ℚ
  unit_price : ℚ
  price : ℚ
deriving DecidableEq

/-- A line item exactly as decoded from the model response
(`parsedData.items`), before normalization: every field may be absent. -/
structure RawItem where
  description : Option String
  description_en : Option String
  quantity : Option ℚ
  unit_price : Option ℚ
  price : Option ℚ
deriving DecidableEq

/-- The decoded model response (`parsedData = JSON.parse(response.text)`). -/
structure ParsedData where
  merchant : Option String
  date : Option String
  total : Option ℚ
  currency : Option String
  items : Option (List RawItem)
deriving DecidableEq

/-- One stored expense: spread of the processed response plus the
time-based `id: Date.now()`. -/
structure ExpenseRecord where
  id : ℚ
  merchant : Option String
  date : Option String
  total : Option ℚ
  currency : Option String
  items : List LineItem
deriving DecidableEq

/-- JavaScript `x || d` on an optional number: absent and `0` are falsy. -/
def jsOrQ (x : Option ℚ) (d : ℚ) : ℚ :=
  match x with
  | none => d
  | some v => if v = 0 then d else v

/-- JavaScript `x || d` on an optional string: absent and `""` are falsy. -/
def jsOrStr (x : Option String) (d : String) : String :=
  match x with
  | none => d
  | some s => if s = "" then d else s

/-- Item normalization from `handleImageChange` (src/index.tsx lines
142-148): `description: item.description || ''`, `quantity: item.quantity
|| 1`, `unit_price: item.unit_price || item.price || 0`,
`price: item.price || 0`. -/
def normalizeItem (it : RawItem) : LineItem where
  description := jsOrStr it.description ""
  description_en := jsOrStr it.description_en ""
  quantity := jsOrQ it.quantity 1
  unit_price := jsOrQ it.unit_price (jsOrQ it.price 0)
  price := jsOrQ it.price 0

/-- `processedData` plus the new-record assembly of lines 140-152:
spread of `parsedData`, normalized `items` (`parsedData.items || []`),
and `id: Date.now()` (the timestamp `t`). -/
def processData (d : ParsedData) (t : ℚ) : ExpenseRecord where
  id := t
  merchant := d.merchant
  date := d.date
  total := d.total
  currency := d.currency
  items := (d.items.getD []).map normalizeItem

/-- JavaScript `toUpperCase`, modelled character by character (the
relevant currency codes are ASCII, where the two functions agree). -/
def jsToUpper (s : String) : String := ⟨s.data.map Char.toUpper⟩

/-- `getCurrencySymbol` (lines 72-84): `switch (currency?.toUpperCase())`
with cases KRW/WON, USD, EUR and default `₩`. -/
def getCurrencySymbol (currency : Option String) : String :=
  match currency with
  | none => "₩"
  | some c =>
    if jsToUpper c = "KRW" ∨ jsToUpper c = "WON" then "₩"
    else if jsToUpper c = "USD" then "$"
    else if jsToUpper c = "EUR" then "€"
    else "₩"

/-- The stage at which an ingestion attempt failed: the file read
(`fileToGenerativePart` rejecting), the network/model request
(`generateContent` throwing), or decoding the response (`JSON.parse`
throwing). All are caught by the single `catch` block. -/
inductive IngestError where
  | fileRead
  | request
  | decode
deriving DecidableEq

/-- The single user-visible ingestion failure banner (line 157). -/
def failureMessage : String := "Failed to process receipt. Please try another image."

/-- The component state relevant to the claims: the expense collection,
the error banner, the loading flag, the preview image URL, and the
editing session (`editingId`, `editedExpense`). -/
structure AppState where
  expenses : List ExpenseRecord
  error : Option String
  isLoading : Bool
  image : Option String
  editingId : Option ℚ
  editedExpense : Option ExpenseRecord
deriving DecidableEq

/-- The end-to-end effect of `handleImageChange` (lines 86-163) on the
state, given the outcome of the awaited read/request/decode stages and
the `Date.now()` timestamp `t`. On success the processed record is
prepended; on any failure the error banner is set; the `finally` block
clears the loading flag and the preview either way
(`setError(null)` ran at the start, so on success the banner is clear). -/
def handleImageChange (res : Except IngestError ParsedData) (t : ℚ)
    (s : AppState) : AppState :=
  match res with
  | .ok d =>
    { s with
      expenses := processData d t :: s.expenses
      error := none
      isLoading := false
      image := none }
  | .error _ =>
    { s with
      error := some failureMessage
      isLoading := false
      image := none }

/-- `handleEdit` (lines 169-172): records the editing id and deep-copies
the record into the editing buffer (a deep copy of a pure value is the
value itself). -/
def handleEdit (r : ExpenseRecord) (s : AppState) : AppState :=
  { s with editingId := some r.id, editedExpense := some r }

/-- `handleCancelEdit` (lines 174-177). -/
def handleCancelEdit (s : AppState) : AppState :=
  { s with editingId := none, editedExpense := none }

/-- `handleSaveEdit` (lines 179-182): every record whose id equals the
current `editingId` is replaced by the editing buffer, then the session
is cleared. When no session is open (`editingId === null`) the strict
equality test is false for every record and the map is the identity. -/
def handleSaveEdit (s : AppState) : AppState :=
  { s with
    expenses := s.expenses.map (fun e =>
      match s.editingId, s.editedExpense with
      | some eid, some b => if e.id = eid then b else e
      | _, _ => e)
    editingId := none
    editedExpense := none }

/-- `handleDelete` (lines 184-188), after the user confirms: keeps
exactly the records whose id differs from the argument. -/
def handleDelete (i : ℚ) (s : AppState) : AppState :=
  { s with expenses := s.expenses.filter (fun e => e.id ≠ i) }

/-- The two text sub-fields of a line item editable in the form. -/
inductive ItemTextField where
  | description
  | description_en
deriving DecidableEq

/-- The three numeric sub-fields of a line item, parsed with
`parseFloat(value) || 0`. -/
inductive ItemNumField where
  | quantity
  | unit_price
  | price
deriving DecidableEq

/-- One user edit applied to the editing buffer: `handleFieldChange` on
`merchant`/`date` (string value) or `total` (`parseFloat(value) || 0`,
modelled by the resulting number), `handleItemChange` at an index,
`handleAddItem`, or `handleRemoveItem`. None of them touches `id`. -/
inductive EditOp where
  | fieldMerchant (v : String)
  | fieldDate (v : String)
  | fieldTotal (v : ℚ)
  | itemText (i : Nat) (f : ItemTextField) (v : String)
  | itemNum (i : Nat) (f : ItemNumField) (v : ℚ)
  | addItem
  | removeItem (i : Nat)
deriving DecidableEq

/-- In-place update of the element at an index, as the
`[...items]; newItems[index] = ...` pattern of `handleItemChange`
(a write past the end never happens from the rendered form). -/
def modifyAt (f : LineItem → LineItem) : Nat → List LineItem → List LineItem
  | _, [] => []
  | 0, x :: xs => f x :: xs
  | n + 1, x :: xs => x :: modifyAt f n xs

/-- `items.filter((_, i) => i !== index)` from `handleRemoveItem`. -/
def removeAt : Nat → List LineItem → List LineItem
  | _, [] => []
  | 0, _ :: xs => xs
  | n + 1, x :: xs => x :: removeAt n xs

/-- The blank item appended by `handleAddItem` (line 211). -/
def blankItem : LineItem := ⟨"", "", 1, 0, 0⟩

/-- Effect of one edit operation on the editing buffer. -/
def applyEditOp (op : EditOp) (b : ExpenseRecord) : ExpenseRecord :=
  match op with
  | .fieldMerchant v => { b with merchant := some v }
  | .fieldDate v => { b with date := some v }
  | .fieldTotal v => { b with total := some v }
  | .itemText i f v =>
    { b with items := modifyAt (fun it =>
        match f with
        | .description => { it with description := v }
        | .description_en => { it with description_en := v }) i b.items }
  | .itemNum i f v =>
    { b with items := modifyAt (fun it =>
        match f with
        | .quantity => { it with quantity := v }
        | .unit_price => { it with unit_price := v }
        | .price => { it with price := v }) i b.items }
  | .addItem => { b with items := b.items ++ [blankItem] }
  | .removeItem i => { b with items := removeAt i b.items }

/-- A sequence of edits applied to the buffer, left to right. -/
def applyEdits (ops : List EditOp) (b : ExpenseRecord) : ExpenseRecord :=
  ops.foldl (fun b op => applyEditOp op b) b

/-- Lifting an edit to the state: the handlers all rewrite
`editedExpense` through `setEditedExpense(prev => ...)`. -/
def applyEditState (op : EditOp) (s : AppState) : AppState :=
  { s with editedExpense := s.editedExpense.map (applyEditOp op) }

/-- `applyEditState` over a sequence of edits. -/
def applyEditsState (ops : List EditOp) (s : AppState) : AppState :=
  ops.foldl (fun s op => applyEditState op s) s

/-- The two sort orders of the toggle (`'desc'` initial, `'asc'`). -/
inductive SortOrder where
  | asc
  | desc
deriving DecidableEq

/-- The comparison key of `sortedExpenses` (lines 220-228):
`a.date ? new Date(a.date) : new Date(0)`, as milliseconds. A missing or
empty (falsy) date string yields the epoch `new Date(0)`; otherwise the
browser's parse `dm` is applied. -/
def dateKey (dm : String → ℤ) (r : ExpenseRecord) : ℤ :=
  match r.date with
  | none => 0
  | some s => if s = "" then 0 else dm s

/-- The ordering realised by the comparator `dateB - dateA` (desc) or
`dateA - dateB` (asc). -/
def sortLE (dm : String → ℤ) (ord : SortOrder) (a b : ExpenseRecord) : Prop :=
  match ord with
  | .desc => dateKey dm b ≤ dateKey dm a
  | .asc => dateKey dm a ≤ dateKey dm b

instance (dm : String → ℤ) (ord : SortOrder) :
    DecidableRel (sortLE dm ord) := fun a b =>
  match ord with
  | .desc => inferInstanceAs (Decidable (dateKey dm b ≤ dateKey dm a))
  | .asc => inferInstanceAs (Decidable (dateKey dm a ≤ dateKey dm b))

instance (dm : String → ℤ) (ord : SortOrder) :
    IsTotal ExpenseRecord (sortLE dm ord) where
  total a b := by cases ord <;> exact Int.le_total _ _

instance (dm : String → ℤ) (ord : SortOrder) :
    IsTrans ExpenseRecord (sortLE dm ord) where
  trans a b c := by
    cases ord
    · exact fun h h' => le_trans h h'
    · exact fun h h' => le_trans h' h

/-- `sortedExpenses = [...expenses].sort(comparator)`: a fresh display
copy, stably sorted by the date key (ECMAScript sort is stable, so any
stable sort with the same total preorder yields the same list). -/
def sortDisplay (dm : String → ℤ) (ord : SortOrder)
    (l : List ExpenseRecord) : List ExpenseRecord :=
  l.insertionSort (sortLE dm ord)

/-- `totalExpenses = expenses.reduce((sum, e) => sum + (e.total || 0), 0)`
(line 230). -/
def totalExpenses (l : List ExpenseRecord) : ℚ :=
  l.foldl (fun sum e => sum + jsOrQ e.total 0) 0

/-!
### Persistence

`localStorage` holds, under the key `expenses_<userId>`, the
`JSON.stringify` of the collection; the load effect applies `JSON.parse`.
The store is modelled at the level of parsed JSON values: a `Json` tree
stands for the stored string, `listToJson` for serialization (recall that
`JSON.stringify` omits `undefined` fields), and `jsonToList` for parsing
the string back into the typed collection.
-/

/-- A JSON value. -/
inductive Json where
  | jnull
  | jstr (s : String)
  | jnum (q : ℚ)
  | jarr (xs : List Json)
  | jobj (fields : List (String × Json))

/-- Serialization of a normalized line item: all five fields present. -/
def itemToJson (it : LineItem) : Json :=
  .jobj [("description", .jstr it.description),
         ("description_en", .jstr it.description_en),
         ("quantity", .jnum it.quantity),
         ("unit_price", .jnum it.unit_price),
         ("price", .jnum it.price)]

/-- An optional string field: `JSON.stringify` omits it when absent. -/
def optStrField (k : String) : Option String → List (String × Json)
  | none => []
  | some s => [(k, .jstr s)]

/-- An optional numeric field: omitted when absent. -/
def optNumField (k : String) : Option ℚ → List (String × Json)
  | none => []
  | some q => [(k, .jnum q)]

/-- Serialization of one `ExpenseRecord`. -/
def recordToJson (r : ExpenseRecord) : Json :=
  .jobj ([("id", .jnum r.id)]
    ++ optStrField "merchant" r.merchant
    ++ optStrField "date" r.date
    ++ optNumField "total" r.total
    ++ optStrField "currency" r.currency
    ++ [("items", .jarr (r.items.map itemToJson))])

/-- `JSON.stringify(expenses)`. -/
def listToJson (l : List ExpenseRecord) : Json :=
  .jarr (l.map recordToJson)

/-- Property access `obj[k]` on a parsed JSON object. -/
def getField (fields : List (String × Json)) (k : String) : Option Json :=
  (fields.find? (fun p => p.1 = k)).map (fun p => p.2)

/-- Reading a mandatory string property. -/
def asStr : Option Json → Option String
  | some (.jstr s) => some s
  | _ => none

/-- Reading a mandatory numeric property. -/
def asNum : Option Json → Option ℚ
  | some (.jnum q) => some q
  | _ => none

/-- Reading an optional string property: absent is fine, a present
non-string is a shape mismatch. -/
def asOptStr : Option Json → Option (Option String)
  | none => some none
  | some (.jstr s) => some (some s)
  | _ => none

/-- Reading an optional numeric property. -/
def asOptNum : Option Json → Option (Option ℚ)
  | none => some none
  | some (.jnum q) => some (some q)
  | _ => none

/-- Interpreting a parsed JSON value as a normalized line item. -/
def jsonToItem : Json → Option LineItem
  | .jobj fs => do
    let d ← asStr (getField fs "description")
    let de ← asStr (getField fs "description_en")
    let q ← asNum (getField fs "quantity")
    let u ← asNum (getField fs "unit_price")
    let p ← asNum (getField fs "price")
    pure ⟨d, de, q, u, p⟩
  | _ => none

/-- Interpreting each element of a parsed JSON array as a line item. -/
def jsonToItems : List Json → Option (List LineItem)
  | [] => some []
  | j :: js => do
    let it ← jsonToItem j
    let its ← jsonToItems js
    pure (it :: its)

/-- Interpreting a parsed JSON value as one `ExpenseRecord`. -/
def jsonToRecord : Json → Option ExpenseRecord
  | .jobj fs => do
    let i ← asNum (getField fs "id")
    let m ← asOptStr (getField fs "merchant")
    let dt ← asOptStr (getField fs "date")
    let tot ← asOptNum (getField fs "total")
    let cur ← asOptStr (getField fs "currency")
    let its ← match getField fs "items" with
      | some (.jarr xs) => jsonToItems xs
      | _ => none
    pure ⟨i, m, dt, tot, cur, its⟩
  | _ => none

/-- Interpreting each element of a parsed JSON array as a record. -/
def jsonToRecords : List Json → Option (List ExpenseRecord)
  | [] => some []
  | j :: js => do
    let r ← jsonToRecord j
    let rs ← jsonToRecords js
    pure (r :: rs)

/-- `JSON.parse` of a stored collection, read back into the model. -/
def jsonToList : Json → Option (List ExpenseRecord)
  | .jarr xs => jsonToRecords xs
  | _ => none

/-- The per-identity storage key `expenses_<userId>` (lines 32 and 46). -/
def storageKey (uid : String) : String := "expenses_" ++ uid

/-- The browser's key-value store, at the granularity of parsed JSON. -/
def Store : Type := String → Option Json

/-- The save effect (lines 43-52): write-through of the whole collection
under the identity's key on every mutation. -/
def saveExpenses (uid : String) (l : List ExpenseRecord) (st : Store) : Store :=
  fun k => if k = storageKey uid then some (listToJson l) else st k

/-- The load effect (lines 29-41): read the identity's key and parse it;
`none` when nothing (or something falsy) is stored. -/
def loadExpenses (uid : String) (st : Store) : Option (List ExpenseRecord) :=
  match st (storageKey uid) with
  | none => none
  | some j => jsonToList j

/-!
### The operational step relation

Reachable application states: the first-run state has an empty
collection, and each user interaction or completed ingestion is one step.
Ingestions may complete at arbitrary timestamps, so the step relation
quantifies over the `Date.now()` value `t` with no constraint.
-/

/-- The first-run state: empty collection, no banner, idle, no edit. -/
def initialState : AppState :=
  { expenses := [], error := none, isLoading := false, image := none,
    editingId := none, editedExpense := none }

/-- One user-visible transition of the application. -/
inductive Step : AppState → AppState → Prop where
  | ingestOk (d : ParsedData) (t : ℚ) (s : AppState) :
      Step s (handleImageChange (.ok d) t s)
  | ingestErr (e : IngestError) (t : ℚ) (s : AppState) :
      Step s (handleImageChange (.error e) t s)
  | beginEdit (r : ExpenseRecord) (s : AppState) (hr : r ∈ s.expenses) :
      Step s (handleEdit r s)
  | editBuffer (op : EditOp) (s : AppState) :
      Step s (applyEditState op s)
  | cancelEdit (s : AppState) :
      Step s (handleCancelEdit s)
  | saveEdit (s : AppState) :
      Step s (handleSaveEdit s)
  | deleteRecord (i : ℚ) (s : AppState) :
      Step s (handleDelete i s)

/-- States reachable from the first-run state. -/
inductive Reachable : AppState → Prop where
  | init : Reachable initialState
  | step {s s' : AppState} : Reachable s → Step s s' → Reachable s'

/-- The uniqueness invariant of the data model: no two entries of the
collection share an `id`. -/
def idsUnique (l : List ExpenseRecord) : Prop :=
  (l.map (fun e => e.id)).Nodup

instance (l : List ExpenseRecord) : Decidable (idsUnique l) :=
  inferInstanceAs (Decidable (List.Nodup _))

/-!
### Shared lemmas
-/

/-- Round trip of one serialized line item. -/
theorem jsonToItem_itemToJson (it : LineItem) :
    jsonToItem (itemToJson it) = some it := rfl

/-- Round trip of a serialized item list. -/
theorem itemList_roundtrip :
    ∀ its : List LineItem, jsonToItems (its.map itemToJson) = some its
  | [] => rfl
  | it :: its => by
    simp [jsonToItems, jsonToItem_itemToJson, itemList_roundtrip its]

/-- Round trip of one serialized record, for every combination of
present and absent optional fields. -/
theorem jsonToRecord_recordToJson (r : ExpenseRecord) :
    jsonToRecord (recordToJson r) = some r := by
  obtain ⟨i, m, dt, tot, cur, its⟩ := r
  cases m <;> cases dt <;> cases tot <;> cases cur <;>
    simp [jsonToRecord, recordToJson, optStrField, optNumField, getField,
      List.find?, asNum, asOptStr, asOptNum, itemList_roundtrip]

/-- Round trip of the serialized collection. -/
theorem jsonToList_listToJson :
    ∀ l : List ExpenseRecord, jsonToList (listToJson l) = some l := by
  intro l
  have h : ∀ l : List ExpenseRecord, jsonToRecords (l.map recordToJson) = some l := by
    intro l
    induction l with
    | nil => rfl
    | cons r l ih => simp [jsonToRecords, jsonToRecord_recordToJson, ih]
  simpa [jsonToList, listToJson] using h l

/-- Saving then loading the same identity's key returns the collection. -/
theorem load_after_save (uid : String) (l : List ExpenseRecord) (st : Store) :
    loadExpenses uid (saveExpenses uid l st) = some l := by
  simp [loadExpenses, saveExpenses, jsonToList_listToJson]

/-- No edit operation changes the buffer's `id`. -/
theorem applyEditOp_id (op : EditOp) (b : ExpenseRecord) :
    (applyEditOp op b).id = b.id := by
  cases op <;> rfl

/-- No sequence of edit operations changes the buffer's `id`. -/
theorem applyEdits_id (ops : List EditOp) (b : ExpenseRecord) :
    (applyEdits ops b).id = b.id := by
  induction ops generalizing b with
  | nil => rfl
  | cons op ops ih => simpa [applyEdits] using (ih (applyEditOp op b)).trans (applyEditOp_id op b)

/-- Applying edits at the state level only rewrites the buffer, through
`applyEdits`. -/
theorem applyEditsState_spec (ops : List EditOp) (s : AppState) :
    applyEditsState ops s =
      { s with editedExpense := s.editedExpense.map (applyEdits ops) } := by
  induction ops generalizing s with
  | nil =>
    cases s with
    | mk ex er lo im eid eb => cases eb <;> simp [applyEditsState, applyEdits]
  | cons op ops ih =>
    have h := ih (applyEditState op s)
    cases s with
    | mk ex er lo im eid eb =>
      cases eb <;>
        simp_all [applyEditsState, applyEditState, applyEdits]

/-- `x || 0` on an optional number is `Option.getD` at default `0`. -/
theorem jsOrQ_zero (x : Option ℚ) : jsOrQ x 0 = x.getD 0 := by
  cases x with
  | none => rfl
  | some v =>
    by_cases h : v = 0 <;> simp [jsOrQ, h]

/-- A left fold accumulating a mapped sum. -/
theorem foldl_add_map (f : ExpenseRecord → ℚ) :
    ∀ (l : List ExpenseRecord) (a : ℚ),
      l.foldl (fun sum e => sum + f e) a = a + (l.map f).sum
  | [], a => by simp
  | e :: l, a => by
    rw [List.foldl_cons, foldl_add_map f l (a + f e)]
    simp [add_assoc]

/-- `totalExpenses` is the sum of the per-record contributions. -/
theorem totalExpenses_eq_sum (l : List ExpenseRecord) :
    totalExpenses l = (l.map (fun e => e.total.getD 0)).sum := by
  have h := foldl_add_map (fun e => jsOrQ e.total 0) l 0
  simpa [totalExpenses, jsOrQ_zero] using h

/-!
### Claim theorems
-/

/-- C2: each parsed line item is normalized so that an absent `quantity`
becomes `1`, an absent `unit_price` falls back to the item's `price` and
otherwise to `0`, and an absent `price` becomes `0`; in particular an
item with `unit_price` absent and `price` `1200` gets `unit_price`
`1200`. -/
theorem C2_item_normalization :
    (∀ it : RawItem, it.quantity = none → (normalizeItem it).quantity = 1) ∧
    (∀ it : RawItem, it.unit_price = none →
      (normalizeItem it).unit_price = it.price.getD 0) ∧
    (∀ it : RawItem, it.price = none → (normalizeItem it).price = 0) ∧
    (∀ it : RawItem, it.unit_price = none → it.price = some 1200 →
      (normalizeItem it).unit_price = 1200) := by
  refine ⟨fun it h => ?_, fun it h => ?_, fun it h => ?_, fun it h h12 => ?_⟩
  · simp [normalizeItem, jsOrQ, h]
  · show jsOrQ it.unit_price (jsOrQ it.price 0) = it.price.getD 0
    rw [h]
    show jsOrQ it.price 0 = it.price.getD 0
    exact jsOrQ_zero it.price
  · simp [normalizeItem, jsOrQ, h]
  · simp [normalizeItem, h, h12, jsOrQ]

/-- C2 witness: the three defaults and the `price: 1200` scenario at
concrete items. -/
theorem C2_item_normalization_witness :
    (normalizeItem ⟨some "coffee", some "coffee", none, some 3, some 3⟩).quantity = 1 ∧
    (normalizeItem ⟨some "coffee", some "coffee", some 2, none, some 9⟩).unit_price = 9 ∧
    (normalizeItem ⟨some "coffee", some "coffee", some 2, some 3, none⟩).price = 0 ∧
    (normalizeItem ⟨some "coffee", some "coffee", some 1, none, some 1200⟩).unit_price = 1200 :=
  ⟨C2_item_normalization.1 _ rfl, C2_item_normalization.2.1 _ rfl,
   C2_item_normalization.2.2.1 _ rfl, C2_item_normalization.2.2.2 _ rfl rfl⟩

/-- C10: normalization silently overwrites a stated `unit_price` of `0`
with the line total, because `0` is falsy in `item.unit_price ||
item.price || 0`: for a parsed item with `unit_price` `0` and nonzero
`price` `p`, the normalized `unit_price` is `p`. -/
theorem C10_zero_unit_price_overwritten (it : RawItem) (p : ℚ)
    (hu : it.unit_price = some 0) (hp : it.price = some p) (hpz : p ≠ 0) :
    (normalizeItem it).unit_price = p := by
  simp [normalizeItem, jsOrQ, hu, hp, hpz]

/-- C10 witness: `unit_price: 0, price: 7` normalizes to `unit_price 7`. -/
theorem C10_zero_unit_price_overwritten_witness :
    (normalizeItem ⟨some "tea", some "tea", some 1, some 0, some 7⟩).unit_price = 7 :=
  C10_zero_unit_price_overwritten _ 7 rfl rfl (by norm_num)

/-- C9: the currency-symbol lookup maps an absent code and every
unrecognized code to the fixed default `₩`, and maps the recognized
codes KRW, WON, USD, EUR to their symbols. -/
theorem C9_currency_symbol :
    getCurrencySymbol none = "₩" ∧
    (∀ c : String, jsToUpper c ≠ "KRW" → jsToUpper c ≠ "WON" →
      jsToUpper c ≠ "USD" → jsToUpper c ≠ "EUR" →
      getCurrencySymbol (some c) = "₩") ∧
    getCurrencySymbol (some "KRW") = "₩" ∧
    getCurrencySymbol (some "WON") = "₩" ∧
    getCurrencySymbol (some "USD") = "$" ∧
    getCurrencySymbol (some "EUR") = "€" := by
  refine ⟨rfl, fun c h1 h2 h3 h4 => ?_, by decide, by decide, by decide, by decide⟩
  simp [getCurrencySymbol, h1, h2, h3, h4]

/-- C9 witness: the unrecognized code GBP falls back to the default. -/
theorem C9_currency_symbol_witness :
    getCurrencySymbol (some "GBP") = "₩" :=
  C9_currency_symbol.2.1 "GBP" (by decide) (by decide) (by decide) (by decide)

/-- C7: an ingestion that fails at any stage (file read, request, or
decode) leaves the collection unchanged, shows exactly the one failure
banner, and returns the pipeline to idle (loading flag cleared, preview
cleared). -/
theorem C7_failure_leaves_state (err : IngestError) (t : ℚ) (s : AppState) :
    (handleImageChange (.error err) t s).expenses = s.expenses ∧
    (handleImageChange (.error err) t s).error = some failureMessage ∧
    (handleImageChange (.error err) t s).isLoading = false ∧
    (handleImageChange (.error err) t s).image = none :=
  ⟨rfl, rfl, rfl, rfl⟩

/-- C6: the displayed aggregate equals the sum of `total` over all
records with an absent `total` contributing `0`, and is unchanged by
sorting (either order, any date parse) and by arbitrary rewriting of
every record's `currency` field. -/
theorem C6_total_aggregate (l : List ExpenseRecord) (dm : String → ℤ)
    (ord : SortOrder) (g : ExpenseRecord → Option String) :
    totalExpenses l = (l.map (fun e => e.total.getD 0)).sum ∧
    totalExpenses (sortDisplay dm ord l) = totalExpenses l ∧
    totalExpenses (l.map (fun e => { e with currency := g e })) = totalExpenses l := by
  refine ⟨totalExpenses_eq_sum l, ?_, ?_⟩
  · rw [totalExpenses_eq_sum, totalExpenses_eq_sum]
    exact List.Perm.sum_eq ((List.perm_insertionSort _ l).map _)
  · rw [totalExpenses_eq_sum, totalExpenses_eq_sum, List.map_map]
    rfl

/-- C4: saving a collection and loading it back for the same identity
yields the collection unchanged, field for field, with record and item
order preserved. -/
theorem C4_round_trip (uid : String) (l : List ExpenseRecord) (st : Store) :
    loadExpenses uid (saveExpenses uid l st) = some l :=
  load_after_save uid l st

/-- C1 counterexample: the prepended record does not always carry a
fresh id. The collection holding one record of id 7 is reachable by a
successful ingestion at `Date.now() = 7`; a second successful ingestion
completing in the same millisecond prepends a record whose id 7 already
belongs to the record in the unchanged tail. -/
theorem C1_ingestion_counterexample :
    Reachable (handleImageChange (.ok ⟨some "Cafe", none, none, none, none⟩)
      7 initialState) ∧
    (handleImageChange (.ok ⟨some "Bar", none, none, none, none⟩) 7
      (handleImageChange (.ok ⟨some "Cafe", none, none, none, none⟩) 7
        initialState)).expenses.head?.map (fun e => e.id) = some 7 ∧
    7 ∈ (handleImageChange (.ok ⟨some "Bar", none, none, none, none⟩) 7
      (handleImageChange (.ok ⟨some "Cafe", none, none, none, none⟩) 7
        initialState)).expenses.tail.map (fun e => e.id) :=
  ⟨Reachable.step Reachable.init (Step.ingestOk _ 7 _), by decide, by decide⟩

/-- C1 (amended): a successful ingestion prepends exactly one new
record, carrying the time-based id `Date.now()`, to the front of the
collection; the rest of the collection is unchanged in order; the
write-through persistence of the new collection reads back equal to it;
and the id is fresh provided that timestamp differs from every id
already in the collection (a same-millisecond completion can repeat an
existing id). -/
theorem C1_ingestion_prepends (d : ParsedData) (t : ℚ) (s : AppState)
    (uid : String) (st : Store) :
    (handleImageChange (.ok d) t s).expenses = processData d t :: s.expenses ∧
    (handleImageChange (.ok d) t s).expenses.length = s.expenses.length + 1 ∧
    (t ∉ s.expenses.map (fun e => e.id) →
      (processData d t).id ∉ s.expenses.map (fun e => e.id)) ∧
    loadExpenses uid
        (saveExpenses uid (handleImageChange (.ok d) t s).expenses st)
      = some (handleImageChange (.ok d) t s).expenses := by
  refine ⟨rfl, by simp [handleImageChange], ?_, load_after_save _ _ _⟩
  intro hfresh
  simpa [processData] using hfresh

/-- C1 witness: ingesting a concrete receipt into the empty first-run
state, where the timestamp 5 is unused and the id is fresh. -/
theorem C1_ingestion_prepends_witness :
    (handleImageChange (.ok ⟨some "Cafe", some "2024-01-02", some 1200, none, none⟩)
        5 initialState).expenses
      = processData ⟨some "Cafe", some "2024-01-02", some 1200, none, none⟩ 5
          :: initialState.expenses ∧
    (handleImageChange (.ok ⟨some "Cafe", some "2024-01-02", some 1200, none, none⟩)
        5 initialState).expenses.length = initialState.expenses.length + 1 ∧
    (processData ⟨some "Cafe", some "2024-01-02", some 1200, none, none⟩ 5).id
      ∉ initialState.expenses.map (fun e => e.id) ∧
    loadExpenses "u"
        (saveExpenses "u"
          (handleImageChange (.ok ⟨some "Cafe", some "2024-01-02", some 1200, none, none⟩)
            5 initialState).expenses (fun _ => none))
      = some (handleImageChange (.ok ⟨some "Cafe", some "2024-01-02", some 1200, none, none⟩)
          5 initialState).expenses :=
  have h := C1_ingestion_prepends
    ⟨some "Cafe", some "2024-01-02", some 1200, none, none⟩ 5 initialState
    "u" (fun _ => none)
  ⟨h.1, h.2.1, h.2.2.1 (by decide), h.2.2.2⟩

/-- C5 counterexample: a missing date is not treated as the earliest
possible value. The browser parses a pre-1970 date such as 1969-12-31 to
a negative millisecond value, while a missing date gets `new Date(0)`,
the epoch; so in ascending order the dated record sorts strictly before
the missing-date record. -/
theorem C5_sort_counterexample :
    (⟨1, none, none, none, none, []⟩ : ExpenseRecord).date = none ∧
    dateKey (fun _ => -86400000) ⟨2, some "Shop", some "1969-12-31", none, none, []⟩ <
      dateKey (fun _ => -86400000) ⟨1, none, none, none, none, []⟩ ∧
    sortDisplay (fun _ => -86400000) .asc
        [⟨1, none, none, none, none, []⟩,
         ⟨2, some "Shop", some "1969-12-31", none, none, []⟩]
      = [⟨2, some "Shop", some "1969-12-31", none, none, []⟩,
         ⟨1, none, none, none, none, []⟩] :=
  ⟨rfl, by decide, by decide⟩

/-- C5 (amended): the display sort orders a fresh copy of the collection
by date key with a missing date treated as the epoch (`new Date(0)`),
not the earliest possible value; the result is a permutation of the
canonical collection, is sorted for the chosen order, and re-applying
the sort to its own output returns it unchanged. -/
theorem C5_sort_amended (dm : String → ℤ) (ord : SortOrder)
    (l : List ExpenseRecord) :
    (∀ r : ExpenseRecord, r.date = none → dateKey dm r = 0) ∧
    (sortDisplay dm ord l).Perm l ∧
    List.Sorted (sortLE dm ord) (sortDisplay dm ord l) ∧
    sortDisplay dm ord (sortDisplay dm ord l) = sortDisplay dm ord l := by
  refine ⟨fun r h => by simp [dateKey, h], List.perm_insertionSort _ l,
    List.sorted_insertionSort _ l, ?_⟩
  exact List.Sorted.insertionSort_eq (List.sorted_insertionSort _ l)

/-- C5 witness: the epoch key of a dateless record and idempotence at a
concrete one-record collection. -/
theorem C5_sort_amended_witness :
    dateKey (fun _ => 7) ⟨1, none, none, none, none, []⟩ = 0 ∧
    sortDisplay (fun _ => 7) .desc (sortDisplay (fun _ => 7) .desc
        [⟨1, some "A", some "2024-01-02", none, none, []⟩])
      = sortDisplay (fun _ => 7) .desc
          [⟨1, some "A", some "2024-01-02", none, none, []⟩] :=
  ⟨(C5_sort_amended (fun _ => 7) .desc []).1 _ rfl,
   (C5_sort_amended (fun _ => 7) .desc
     [⟨1, some "A", some "2024-01-02", none, none, []⟩]).2.2.2⟩

/-- Replacing by an id that occurs nowhere in the list is the identity. -/
theorem map_keep_of_ne (x : ℚ) (b : ExpenseRecord) :
    ∀ l : List ExpenseRecord, (∀ e ∈ l, e.id ≠ x) →
      l.map (fun e => if e.id = x then b else e) = l
  | [], _ => rfl
  | e :: l, h => by
    have he := h e (List.mem_cons_self e l)
    have ht := map_keep_of_ne x b l (fun a ha => h a (List.mem_cons_of_mem e ha))
    simp [he, ht]

/-- Under the uniqueness invariant, replacing every record whose id
matches the id of the entry at position `i` is exactly a positional
update at `i`. -/
theorem map_replace_eq_set (b : ExpenseRecord) :
    ∀ (l : List ExpenseRecord) (i : Nat) (hi : i < l.length),
      idsUnique l →
      l.map (fun e => if e.id = (l.get ⟨i, hi⟩).id then b else e) = l.set i b
  | [], i, hi, _ => absurd hi (by simp)
  | x :: xs, 0, _, hnd => by
    have hx : x.id ∉ xs.map (fun e => e.id) := by
      have := List.nodup_cons.mp hnd
      exact this.1
    have hxs : ∀ e ∈ xs, e.id ≠ x.id := by
      intro e he heq
      exact hx (heq ▸ List.mem_map_of_mem (fun e => e.id) he)
    simp [List.get, map_keep_of_ne x.id b xs hxs]
  | x :: xs, i + 1, hi, hnd => by
    have hi' : i < xs.length := Nat.lt_of_succ_lt_succ hi
    have hx : x.id ∉ xs.map (fun e => e.id) := (List.nodup_cons.mp hnd).1
    have hnd' : idsUnique xs := (List.nodup_cons.mp hnd).2
    have htgt : xs.get ⟨i, hi'⟩ ∈ xs := List.get_mem xs i hi'
    have hne : x.id ≠ (xs.get ⟨i, hi'⟩).id := by
      intro heq
      exact hx (heq ▸ List.mem_map_of_mem (fun e => e.id) htgt)
    have ht := map_replace_eq_set b xs i hi' hnd'
    show (if x.id = (xs.get ⟨i, hi'⟩).id then b else x)
        :: xs.map (fun e => if e.id = (xs.get ⟨i, hi'⟩).id then b else e)
      = x :: xs.set i b
    rw [if_neg hne, ht]

/-- C8 counterexample: the claim fails on a collection violating the
uniqueness invariant (such collections are reachable, since two
same-millisecond ingestions duplicate an id). With two records of id 5,
editing the first one's merchant to C and committing also replaces the
second record, which the claim requires to be left untouched. -/
theorem C8_edit_commit_counterexample :
    (handleSaveEdit (applyEditsState [EditOp.fieldMerchant "C"]
        (handleEdit ⟨5, some "A", none, none, none, []⟩
          ⟨[⟨5, some "A", none, none, none, []⟩,
            ⟨5, some "B", none, none, none, []⟩],
            none, false, none, none, none⟩))).expenses
      = [⟨5, some "C", none, none, none, []⟩,
         ⟨5, some "C", none, none, none, []⟩] ∧
    (handleSaveEdit (applyEditsState [EditOp.fieldMerchant "C"]
        (handleEdit ⟨5, some "A", none, none, none, []⟩
          ⟨[⟨5, some "A", none, none, none, []⟩,
            ⟨5, some "B", none, none, none, []⟩],
            none, false, none, none, none⟩))).expenses[1]?
      ≠ some ⟨5, some "B", none, none, none, []⟩ := by
  refine ⟨by decide, by decide⟩

/-- C8 (amended): provided the collection satisfies the uniqueness
invariant, beginning an edit on the record at position `i`, applying any
sequence of buffer edits, and committing replaces exactly that record
with the buffer's contents and leaves every other record untouched in
its original position. -/
theorem C8_edit_commit (s : AppState) (i : Nat) (hi : i < s.expenses.length)
    (ops : List EditOp) (hnd : idsUnique s.expenses) :
    ((handleSaveEdit (applyEditsState ops
        (handleEdit (s.expenses.get ⟨i, hi⟩) s))).expenses
      = s.expenses.set i (applyEdits ops (s.expenses.get ⟨i, hi⟩))) ∧
    (∀ j : Nat, j ≠ i →
      (handleSaveEdit (applyEditsState ops
          (handleEdit (s.expenses.get ⟨i, hi⟩) s))).expenses[j]?
        = s.expenses[j]?) := by
  have h1 : applyEditsState ops (handleEdit (s.expenses.get ⟨i, hi⟩) s)
      = { s with
          editingId := some (s.expenses.get ⟨i, hi⟩).id,
          editedExpense := some (applyEdits ops (s.expenses.get ⟨i, hi⟩)) } := by
    rw [applyEditsState_spec]
    rfl
  have h2 : (handleSaveEdit (applyEditsState ops
      (handleEdit (s.expenses.get ⟨i, hi⟩) s))).expenses
      = s.expenses.map (fun e =>
          if e.id = (s.expenses.get ⟨i, hi⟩).id
          then applyEdits ops (s.expenses.get ⟨i, hi⟩) else e) := by
    rw [h1]
    rfl
  have h3 := map_replace_eq_set (applyEdits ops (s.expenses.get ⟨i, hi⟩))
    s.expenses i hi hnd
  refine ⟨h2.trans h3, fun j hj => ?_⟩
  rw [h2, h3]
  exact List.getElem?_set_ne (fun h => hj h.symm)

/-- C8 witness: editing the merchant of the first of two records. -/
theorem C8_edit_commit_witness :
    ((handleSaveEdit (applyEditsState [EditOp.fieldMerchant "X"]
        (handleEdit
          ((⟨[⟨1, some "A", none, none, none, []⟩,
              ⟨2, some "B", none, none, none, []⟩],
              none, false, none, none, none⟩ : AppState).expenses.get
            ⟨0, by decide⟩)
          ⟨[⟨1, some "A", none, none, none, []⟩,
            ⟨2, some "B", none, none, none, []⟩],
            none, false, none, none, none⟩))).expenses
      = (⟨[⟨1, some "A", none, none, none, []⟩,
           ⟨2, some "B", none, none, none, []⟩],
           none, false, none, none, none⟩ : AppState).expenses.set 0
          (applyEdits [EditOp.fieldMerchant "X"]
            ((⟨[⟨1, some "A", none, none, none, []⟩,
                ⟨2, some "B", none, none, none, []⟩],
                none, false, none, none, none⟩ : AppState).expenses.get
              ⟨0, by decide⟩))) ∧
    (handleSaveEdit (applyEditsState [EditOp.fieldMerchant "X"]
        (handleEdit
          ((⟨[⟨1, some "A", none, none, none, []⟩,
              ⟨2, some "B", none, none, none, []⟩],
              none, false, none, none, none⟩ : AppState).expenses.get
            ⟨0, by decide⟩)
          ⟨[⟨1, some "A", none, none, none, []⟩,
            ⟨2, some "B", none, none, none, []⟩],
            none, false, none, none, none⟩))).expenses[1]?
      = (⟨[⟨1, some "A", none, none, none, []⟩,
           ⟨2, some "B", none, none, none, []⟩],
           none, false, none, none, none⟩ : AppState).expenses[1]? := by
  have h := C8_edit_commit
    ⟨[⟨1, some "A", none, none, none, []⟩,
      ⟨2, some "B", none, none, none, []⟩],
      none, false, none, none, none⟩ 0 (by decide)
    [EditOp.fieldMerchant "X"] (by decide)
  exact ⟨h.1, h.2 1 (by decide)⟩

/-- The editing buffer, when present, carries the id recorded as the
editing id (edits never touch `id`). -/
def bufferConsistent (s : AppState) : Prop :=
  ∀ eid b, s.editingId = some eid → s.editedExpense = some b → b.id = eid

/-- Every reachable state has a consistent editing buffer. -/
theorem reachable_bufferConsistent {s : AppState} (h : Reachable s) :
    bufferConsistent s := by
  induction h with
  | init => intro eid b h1 _; simp [initialState] at h1
  | step hr hs ih =>
    cases hs with
    | ingestOk d t s => intro eid b h1 h2; exact ih eid b h1 h2
    | ingestErr e t s => intro eid b h1 h2; exact ih eid b h1 h2
    | beginEdit r s hrm =>
      intro eid b h1 h2
      simp [handleEdit] at h1 h2
      rw [← h1, ← h2]
    | editBuffer op s =>
      intro eid b h1 h2
      simp [applyEditState] at h1 h2
      obtain ⟨b0, hb0, hb⟩ := h2
      rw [← hb, applyEditOp_id]
      exact ih eid b0 h1 hb0
    | cancelEdit s => intro eid b h1 _; simp [handleCancelEdit] at h1
    | saveEdit s => intro eid b h1 _; simp [handleSaveEdit] at h1
    | deleteRecord i s => intro eid b h1 h2; exact ih eid b h1 h2

/-- Committing an edit does not change the multiset of ids: each
replaced record is replaced by a buffer carrying the same id. -/
theorem handleSaveEdit_ids (s : AppState) (hb : bufferConsistent s) :
    (handleSaveEdit s).expenses.map (fun e => e.id)
      = s.expenses.map (fun e => e.id) := by
  cases hid : s.editingId with
  | none =>
    simp only [handleSaveEdit, hid]
    simp
  | some eid =>
    cases heb : s.editedExpense with
    | none =>
      simp only [handleSaveEdit, hid, heb]
      simp
    | some b =>
      have hbid : b.id = eid := hb eid b hid heb
      simp only [handleSaveEdit, hid, heb, List.map_map]
      refine List.map_congr_left ?_
      intro e _
      by_cases h : e.id = eid
      · simp [Function.comp, h, hbid]
      · simp [Function.comp, h]

/-- C3 counterexample: id uniqueness is not an invariant of the code.
`Date.now()` can return the same millisecond for two ingestions, and the
step relation places no constraint on the timestamps, so a state with
two distinct records both carrying id 5 is reachable from the first-run
state by two successful ingestions. -/
theorem C3_uniqueness_counterexample :
    Reachable (handleImageChange (.ok ⟨some "B", none, none, none, none⟩) 5
      (handleImageChange (.ok ⟨some "A", none, none, none, none⟩) 5 initialState)) ∧
    (handleImageChange (.ok ⟨some "B", none, none, none, none⟩) 5
      (handleImageChange (.ok ⟨some "A", none, none, none, none⟩) 5
        initialState)).expenses.map (fun e => e.id) = [5, 5] ∧
    (handleImageChange (.ok ⟨some "B", none, none, none, none⟩) 5
      (handleImageChange (.ok ⟨some "A", none, none, none, none⟩) 5
        initialState)).expenses[0]?
      ≠ (handleImageChange (.ok ⟨some "B", none, none, none, none⟩) 5
          (handleImageChange (.ok ⟨some "A", none, none, none, none⟩) 5
            initialState)).expenses[1]? ∧
    ¬ idsUnique (handleImageChange (.ok ⟨some "B", none, none, none, none⟩) 5
      (handleImageChange (.ok ⟨some "A", none, none, none, none⟩) 5
        initialState)).expenses :=
  ⟨Reachable.step (Reachable.step Reachable.init (Step.ingestOk _ 5 _))
      (Step.ingestOk _ 5 _),
   by decide, by decide, by decide⟩

/-- C3 (amended): id uniqueness is preserved by every operation except
that a successful ingestion preserves it only when its `Date.now()`
value differs from every id already in the collection (in particular,
two ingestions completing in distinct milliseconds preserve it, while
same-millisecond completions can violate it); commit (from any
reachable state), delete, begin/cancel edit, buffer edits, and failed
ingestions preserve it unconditionally. -/
theorem C3_uniqueness_amended :
    (∀ (s : AppState) (d : ParsedData) (t : ℚ),
      idsUnique s.expenses → t ∉ s.expenses.map (fun e => e.id) →
      idsUnique (handleImageChange (.ok d) t s).expenses) ∧
    (∀ (s : AppState) (err : IngestError) (t : ℚ),
      idsUnique s.expenses →
      idsUnique (handleImageChange (.error err) t s).expenses) ∧
    (∀ s : AppState, Reachable s → idsUnique s.expenses →
      idsUnique (handleSaveEdit s).expenses) ∧
    (∀ (s : AppState) (i : ℚ),
      idsUnique s.expenses → idsUnique (handleDelete i s).expenses) ∧
    (∀ (s : AppState) (r : ExpenseRecord) (op : EditOp),
      idsUnique s.expenses →
      idsUnique (handleEdit r s).expenses ∧
      idsUnique (handleCancelEdit s).expenses ∧
      idsUnique (applyEditState op s).expenses) := by
  refine ⟨?_, ?_, ?_, ?_, ?_⟩
  · intro s d t hnd hfresh
    exact List.nodup_cons.mpr ⟨hfresh, hnd⟩
  · intro s err t hnd
    exact hnd
  · intro s hreach hnd
    have h := handleSaveEdit_ids s (reachable_bufferConsistent hreach)
    show ((handleSaveEdit s).expenses.map (fun e => e.id)).Nodup
    rw [h]
    exact hnd
  · intro s i hnd
    have hsub : List.Sublist ((handleDelete i s).expenses.map (fun e => e.id))
        (s.expenses.map (fun e => e.id)) :=
      List.Sublist.map (fun e => e.id) (List.filter_sublist s.expenses)
    exact hnd.sublist hsub
  · intro s r op hnd
    exact ⟨hnd, hnd, hnd⟩

/-- C3 witness: the preserved invariant at concrete states. -/
theorem C3_uniqueness_amended_witness :
    idsUnique (handleImageChange (.ok ⟨some "A", none, none, none, none⟩)
      5 initialState).expenses ∧
    idsUnique (handleSaveEdit initialState).expenses ∧
    idsUnique (handleDelete 3 initialState).expenses :=
  ⟨C3_uniqueness_amended.1 initialState _ 5 (by decide) (by decide),
   C3_uniqueness_amended.2.2.1 initialState Reachable.init (by decide),
   C3_uniqueness_amended.2.2.2.1 initialState 3 (by decide)⟩

end Receiptify
